import Mathlib

/-!
Shallow embedding of `ComfyUI-IC-Light-Native` (`ic_light_nodes.py`) and
verification of its specification claims.

Tensors are modelled as shape metadata plus a total valuation on `Nat`
indices (row-major layout is irrelevant; only in-range indices are ever
compared).  Devices and dtypes are abstract `Nat` tags.  The PyTorch
operations used by the source (`*` by a scalar, `torch.cat` along dim 0 /
dim 1, `c[None, ...]` slicing, `.to(device)`, broadcasting of a trailing
channel-1 mask) are embedded as the corresponding pure functions.  The
mutable `ModelPatcher` handles are embedded as a heap of model states
indexed by handle ids, with `clone`, `set_model_unet_function_wrapper`
and `add_patches` as explicit heap operations.  The forward-wrapper chain
is run with an event log recording stage entries and native-forward
invocations, so that ordering and call-count claims are statable.
-/

/-- A 4-D tensor with semantic axes (batch, channel, height, width),
as used for latents and unet inputs.  `val` is total; only indices below
the bounds are meaningful. -/
structure Tensor4 where
  b : Nat
  c : Nat
  h : Nat
  w : Nat
  val : Nat → Nat → Nat → Nat → ℚ
  device : Nat
  dtype : Nat

/-- `t * s` for a Python float `s`: elementwise scalar multiplication,
preserving shape, device and dtype. -/
def Tensor4.mulScalar (t : Tensor4) (s : ℚ) : Tensor4 :=
  { t with val := fun b c h w => t.val b c h w * s }

/-- `t.to(device)`: device transfer only (the source calls
`.to(sample.device)` with no dtype argument). -/
def Tensor4.toDevice (t : Tensor4) (dev : Nat) : Tensor4 :=
  { t with device := dev }

/-- `c[None, ...]` for `c` the `i`-th batch entry of `t`: a (1, C, H, W)
view of one batch slice. -/
def Tensor4.sliceB (t : Tensor4) (i : Nat) : Tensor4 :=
  { b := 1, c := t.c, h := t.h, w := t.w,
    val := fun _ ch hh ww => t.val i ch hh ww,
    device := t.device, dtype := t.dtype }

/-- `torch.cat(ts, dim=0)`: concatenation along the batch axis.  PyTorch
raises on an empty list; the empty case here returns a degenerate tensor
and every claim that uses `cat0` carries a non-emptiness hypothesis. -/
def cat0 : List Tensor4 → Tensor4
  | [] => { b := 0, c := 0, h := 0, w := 0, val := fun _ _ _ _ => 0,
            device := 0, dtype := 0 }
  | x :: xs =>
    let rest := cat0 xs
    { b := x.b + rest.b, c := x.c, h := x.h, w := x.w,
      val := fun bb ch hh ww =>
        if bb < x.b then x.val bb ch hh ww else rest.val (bb - x.b) ch hh ww,
      device := x.device, dtype := x.dtype }

/-- `torch.cat(ts, dim=1)`: concatenation along the channel axis. -/
def cat1 : List Tensor4 → Tensor4
  | [] => { b := 0, c := 0, h := 0, w := 0, val := fun _ _ _ _ => 0,
            device := 0, dtype := 0 }
  | x :: xs =>
    let rest := cat1 xs
    { b := x.b, c := x.c + rest.c, h := x.h, w := x.w,
      val := fun bb ch hh ww =>
        if ch < x.c then x.val bb ch hh ww else rest.val bb (ch - x.c) hh ww,
      device := x.device, dtype := x.dtype }

/-!  ## Conditioning: `concat_conds` precompute and `apply_c_concat` -/

/-- The mutable conditioning mapping `params["c"]` (and also the `LATENT`
input dict of `ICLight.apply`): string keys to tensors. -/
abbrev CDict : Type := List (String × Tensor4)

/-- Python dict read: first matching key. -/
def CDict.get : CDict → String → Option Tensor4
  | [], _ => none
  | (k, v) :: rest, key => if k = key then some v else CDict.get rest key

/-- Python dict assignment `d[key] = v`: the new binding shadows any old
one (the old binding for `key` is dropped). -/
def CDict.set (d : CDict) (key : String) (v : Tensor4) : CDict :=
  (key, v) :: List.filter (fun p => decide (p.1 ≠ key)) d

/-- The record passed through the forward-wrapper chain
(`UnetParams` in the source). -/
structure UnetParams where
  input : Tensor4
  timestep : Tensor4
  c : CDict
  cond_or_uncond : List Nat

/-- The precomputed conditioning tensor of `ICLight.apply`:
`concat_conds = c_concat["samples"] * scale_factor` followed by
`torch.cat([c[None, ...] for c in concat_conds], dim=1)`. -/
def concatCondsOf (samples : Tensor4) (scale_factor : ℚ) : Tensor4 :=
  let concat_conds := samples.mulScalar scale_factor
  cat1 ((List.range concat_conds.b).map concat_conds.sliceB)

/-- The tensor stored under `"c_concat"` on each forward call:
`torch.cat([concat_conds.to(sample.device)] *
(sample.shape[0] // concat_conds.shape[0]), dim=0)`. -/
def injected_c_concat (concat_conds : Tensor4) (params : UnetParams) : Tensor4 :=
  cat0 (List.replicate (params.input.b / concat_conds.b)
    (concat_conds.toDevice params.input.device))

/-- `apply_c_concat`: store the broadcast conditioning tensor under the
`"c_concat"` key of the call's conditioning mapping. -/
def apply_c_concat (concat_conds : Tensor4) (params : UnetParams) : UnetParams :=
  { params with
    c := params.c.set "c_concat" (injected_c_concat concat_conds params) }

/-!  ## The forward-wrapper chain

A wrapper receives the unet apply callable and the call params.  To make
ordering and call-count claims statable, runs are instrumented: the
result is paired with an event log, stages log their entry and the native
forward logs `Ev.native`.  A stage is an id together with its pure
pre-processing of the params; `ICLight.apply` installs the stage whose
pre-processing is `apply_c_concat concat_conds`. -/

/-- Events observed while running the wrapper chain. -/
inductive Ev where
  | stage : Nat → Ev
  | native : Ev
deriving DecidableEq

/-- The unet apply callable, invoked as
`unet_apply(x=..., t=..., **params["c"])`, instrumented with a log. -/
abbrev UApply (α : Type) : Type := Tensor4 → Tensor4 → CDict → List Ev × α

/-- A forward wrapper: takes the unet apply callable and the params. -/
abbrev WrapperFn (α : Type) : Type := UApply α → UnetParams → List Ev × α

/-- `unet_dummy_apply`: "a dummy unet apply wrapper serving as the
endpoint of wrapper chain" — invokes the native forward with the call's
input and timestep tensors and the conditioning mapping. -/
def unet_dummy_apply {α : Type} (unet_apply : UApply α) (params : UnetParams) :
    List Ev × α :=
  unet_apply params.input params.timestep params.c

/-- A forward-wrapper stage: an id (for the entry log) and its pure
pre-processing of the call params. -/
structure Stage where
  id : Nat
  pre : UnetParams → UnetParams

/-- Install a stage on top of an existing wrapper, exactly as
`wrapper_func` does: run the new stage's pre-processing on the params,
then delegate to the existing wrapper.  Entry of the stage is logged. -/
def installStage {α : Type} (s : Stage) (existing : WrapperFn α) : WrapperFn α :=
  fun unet_apply params =>
    let r := existing unet_apply (s.pre params)
    (Ev.stage s.id :: r.1, r.2)

/-- `wrapper_func`: the wrapper `ICLight.apply` installs — the stage whose
pre-processing injects `c_concat`, composed on the existing wrapper
(`existing_wrapper(unet_apply, params=apply_c_concat(params))`). -/
def wrapper_func {α : Type} (concat_conds : Tensor4) (sid : Nat)
    (existing : WrapperFn α) : WrapperFn α :=
  installStage ⟨sid, apply_c_concat concat_conds⟩ existing

/-- The wrapper accumulated after installing the given stages in list
order onto the default endpoint (`unet_dummy_apply`). -/
def chainOf {α : Type} (stages : List Stage) : WrapperFn α :=
  stages.foldl (fun wrap s => installStage s wrap) unet_dummy_apply

/-- The native forward function, instrumented to log its invocation. -/
def nativeInstr {α : Type} (nf : Tensor4 → Tensor4 → CDict → α) : UApply α :=
  fun x t c => ([Ev.native], nf x t c)

/-- The params reaching the native forward: each stage's pre-processing
applied in reverse installation order (most recently installed first). -/
def preAll (stages : List Stage) (params : UnetParams) : UnetParams :=
  stages.foldr (fun s q => s.pre q) params

/-!  ## Weight patches and the model-handle heap -/

/-- A weight tensor of the auxiliary model, abstracted to its identity
plus dtype and device tags. -/
structure WTensor where
  id : Nat
  dtype : Nat
  device : Nat
deriving DecidableEq

/-- `value.to(dtype=dtype, device=device)`. -/
def WTensor.to (t : WTensor) (dtype device : Nat) : WTensor :=
  { t with dtype := dtype, device := device }

/-- One registered weight patch: `(kind, [value, {"pad_weight": flag}])`
with kind `"diff"` in the source. -/
structure PatchEntry where
  kind : String
  value : WTensor
  pad_weight : Bool
deriving DecidableEq

/-- The patch set registered by `ICLight.apply`: one entry per auxiliary
state-dict key, keyed as `"diffusion_model." + key`, of kind `"diff"`,
with `pad_weight` exactly on `input_blocks.0.0.weight`; values are moved
to the unet dtype and torch device first. -/
def buildPatches (dtype device : Nat) (sd : List (String × WTensor)) :
    List (String × PatchEntry) :=
  sd.map (fun kv =>
    ("diffusion_model." ++ kv.1,
     { kind := "diff", value := kv.2.to dtype device,
       pad_weight := kv.1 == "input_blocks.0.0.weight" }))

/-- The mutable state behind a `ModelPatcher` handle: the shared
underlying model (by id), its latent-format scale factor, its diffusion
sub-network state dict, and the handle's own overlay — patches and the
forward-wrapper slot (stage ids, oldest first). -/
structure ModelState where
  weightsId : Nat
  scale_factor : ℚ
  diffusionSD : List (String × WTensor)
  patches : List (String × PatchEntry)
  wrapper : Option (List Nat)
deriving DecidableEq

/-- The heap of live model handles. -/
structure World where
  nextId : Nat
  heap : List (Nat × ModelState)
deriving DecidableEq

/-- Association lookup on the heap (first match). -/
def lookupState : List (Nat × ModelState) → Nat → Option ModelState
  | [], _ => none
  | (j, s) :: rest, i => if j = i then some s else lookupState rest i

/-- Read a handle's state. -/
def World.get (w : World) (i : Nat) : Option ModelState :=
  lookupState w.heap i

/-- Overwrite a handle's state in place. -/
def World.set (w : World) (i : Nat) (s : ModelState) : World :=
  { w with heap := w.heap.map (fun p => if p.1 = i then (i, s) else p) }

/-- `model.clone()`: allocate a fresh handle whose state (overlay
included) is copied from the original; the underlying `weightsId` is
shared. -/
def World.clone (w : World) (i : Nat) : World × Nat :=
  match w.get i with
  | some st => ({ nextId := w.nextId + 1, heap := (w.nextId, st) :: w.heap },
      w.nextId)
  | none => (w, w.nextId)

/-- `work_model.set_model_unet_function_wrapper(wrapper_func)`: the
composed wrapper keeps every previously installed stage and appends the
new stage (composition, not replacement). -/
def setUnetFunctionWrapper (w : World) (i : Nat) (sid : Nat) : World :=
  match w.get i with
  | some st => w.set i { st with wrapper := some (st.wrapper.getD [] ++ [sid]) }
  | none => w

/-- `work_model.add_patches(patches=...)`: register the patch batch on the
handle's overlay. -/
def addPatchesOp (w : World) (i : Nat) (ps : List (String × PatchEntry)) :
    World :=
  match w.get i with
  | some st => w.set i { st with patches := st.patches ++ ps }
  | none => w

/-- Errors surfaced by `ICLight.apply`: the `KeyError` on a missing
`"samples"` field, and (embedding-only) a dangling handle id. -/
inductive ApplyErr where
  | missingField
  | badHandle
deriving DecidableEq

/-- `ICLight.apply` at the heap level: validate the conditioning input,
clone the base model, install the conditioning-injection wrapper stage on
the clone, and register the auxiliary weight patches on the clone.  The
pure tensor computations (`concatCondsOf`, `apply_c_concat`) live in the
functional embedding above. -/
def ICLight_apply (w : World) (modelId icId : Nat) (c_concat : CDict)
    (dtype device sid : Nat) : World × Except ApplyErr Nat :=
  if (CDict.get c_concat "samples").isNone then (w, .error .missingField)
  else
    match w.get modelId, w.get icId with
    | some _, some icSt =>
      let cl := w.clone modelId
      let w1 := setUnetFunctionWrapper cl.1 cl.2 sid
      let w2 := addPatchesOp w1 cl.2 (buildPatches dtype device icSt.diffusionSD)
      (w2, .ok cl.2)
    | _, _ => (w, .error .badHandle)

/-!  ## `VAEEncodeArgMax` -/

/-- The mutable VAE handle: whether `first_stage_model` is an
`AutoencoderKL`, the `regularization.sample` flag, and the rest of the
encoder state (abstract). -/
structure VAEState where
  isAutoencoderKL : Bool
  sample : Bool
  encoderData : Nat
deriving DecidableEq

/-- `VAEEncodeArgMax.encode`: assert the encoder kind, save the sampling
flag, force it to `false`, delegate to the standard encode (`inner`,
which may mutate the VAE and may raise — its result is the VAE state it
left behind plus success or an exception), and restore the flag in a
`finally` block on every exit path. -/
def VAEEncodeArgMax_encode
    (inner : VAEState → Nat → VAEState × Except String Nat)
    (vae : VAEState) (pixels : Nat) : VAEState × Except String Nat :=
  if vae.isAutoencoderKL then
    let original_sample_mode := vae.sample
    let r := inner { vae with sample := false } pixels
    ({ r.1 with sample := original_sample_mode }, r.2)
  else
    (vae, .error "ArgMax only supported for AutoencoderKL")

/-!  ## `ICLightApplyMaskGrey.apply_mask`

Images are (batch, H, W, channel); masks are (batch, H, W) or
(batch, H, W, 1).  `alpha.unsqueeze(-1)` turns the 3-D form into the 4-D
form; the arithmetic `image * alpha + (1 - alpha) * 0.5` broadcasts the
mask's channel-1 axis across the image's channels. -/

/-- A channel-last image tensor (batch, H, W, channel). -/
structure TImg where
  b : Nat
  h : Nat
  w : Nat
  c : Nat
  val : Nat → Nat → Nat → Nat → ℚ

/-- A 3-D mask tensor (batch, H, W). -/
structure Tensor3 where
  b : Nat
  h : Nat
  w : Nat
  val : Nat → Nat → Nat → ℚ

/-- The `alpha` argument of `apply_mask`: a 3-D or 4-D mask tensor. -/
inductive MaskArg where
  | m3 : Tensor3 → MaskArg
  | m4 : TImg → MaskArg

/-- `alpha.unsqueeze(-1)`: `[B, H, W] => [B, H, W, C=1]`. -/
def Tensor3.unsqueezeLast (t : Tensor3) : TImg :=
  { b := t.b, h := t.h, w := t.w, c := 1,
    val := fun bb hh ww _ => t.val bb hh ww }

/-- `ICLightApplyMaskGrey.apply_mask`: normalise the mask to 4-D, then
return `image * alpha + (1 - alpha) * 0.5`, broadcasting the mask's
channel-1 axis (index 0) across the image's channel axis. -/
def apply_mask (image : TImg) (alpha : MaskArg) : TImg :=
  let a : TImg :=
    match alpha with
    | .m3 m => m.unsqueezeLast
    | .m4 m => m
  { b := image.b, h := image.h, w := image.w, c := image.c,
    val := fun bb hh ww cc =>
      image.val bb hh ww cc * a.val bb hh ww 0
        + (1 - a.val bb hh ww 0) * (1 / 2) }

/-- Mask value seen by `apply_mask` at a (batch, H, W) site. -/
def MaskArg.at (alpha : MaskArg) (bb hh ww : Nat) : ℚ :=
  match alpha with
  | .m3 m => m.val bb hh ww
  | .m4 m => m.val bb hh ww 0

/-- A concrete (2,4,16,16) latent used by the C2 witness. -/
def demoLatent : Tensor4 :=
  { b := 2, c := 4, h := 16, w := 16,
    val := fun bb cc _ _ => (bb : ℚ) * 4 + cc, device := 0, dtype := 0 }

/-!  # Lemmas about `cat0` / `cat1` -/

theorem cat0_replicate_b (t : Tensor4) (k : Nat) :
    (cat0 (List.replicate k t)).b = k * t.b := by
  induction k with
  | zero => simp [cat0]
  | succ n ih =>
    show t.b + (cat0 (List.replicate n t)).b = (n + 1) * t.b
    rw [ih, Nat.succ_mul, Nat.add_comm]

theorem cat0_replicate_val (t : Tensor4) (hb : t.b = 1) (k : Nat) :
    ∀ i, i < k → ∀ ch hh ww,
      (cat0 (List.replicate k t)).val i ch hh ww = t.val 0 ch hh ww := by
  induction k with
  | zero => intro i hi; omega
  | succ n ih =>
    intro i hi ch hh ww
    show (if i < t.b then t.val i ch hh ww
      else (cat0 (List.replicate n t)).val (i - t.b) ch hh ww) = t.val 0 ch hh ww
    by_cases h : i < t.b
    · rw [if_pos h]
      have : i = 0 := by omega
      rw [this]
    · rw [if_neg h]
      exact ih (i - t.b) (by omega) ch hh ww

theorem cat0_replicate_head (t : Tensor4) (k : Nat) (hk : 0 < k) :
    (cat0 (List.replicate k t)).c = t.c ∧
    (cat0 (List.replicate k t)).h = t.h ∧
    (cat0 (List.replicate k t)).w = t.w ∧
    (cat0 (List.replicate k t)).device = t.device ∧
    (cat0 (List.replicate k t)).dtype = t.dtype := by
  cases k with
  | zero => omega
  | succ n => exact ⟨rfl, rfl, rfl, rfl, rfl⟩

theorem cat1_range_c (C : Nat) : ∀ (n : Nat) (g : Nat → Tensor4),
    (∀ i, i < n → (g i).c = C) →
    (cat1 ((List.range n).map g)).c = C * n := by
  intro n
  induction n with
  | zero => intro g _; rfl
  | succ m ih =>
    intro g hg
    rw [List.range_succ_eq_map, List.map_cons, List.map_map]
    show (g 0).c + (cat1 (List.map (g ∘ Nat.succ) (List.range m))).c = C * (m + 1)
    rw [ih (g ∘ Nat.succ) (fun i hi => hg (i + 1) (by omega)),
      hg 0 (by omega), Nat.mul_succ, Nat.add_comm]

theorem cat1_range_val (C : Nat) : ∀ (n : Nat) (g : Nat → Tensor4),
    (∀ i, i < n → (g i).c = C) →
    ∀ i ch, i < n → ch < C → ∀ bb hh ww,
      (cat1 ((List.range n).map g)).val bb (i * C + ch) hh ww
        = (g i).val bb ch hh ww := by
  intro n
  induction n with
  | zero => intro g _ i ch hi; omega
  | succ m ih =>
    intro g hg i ch hi hch bb hh ww
    rw [List.range_succ_eq_map, List.map_cons, List.map_map]
    show (if i * C + ch < (g 0).c then (g 0).val bb (i * C + ch) hh ww
      else (cat1 (List.map (g ∘ Nat.succ) (List.range m))).val bb
        (i * C + ch - (g 0).c) hh ww) = (g i).val bb ch hh ww
    rw [hg 0 (by omega)]
    cases i with
    | zero =>
      rw [if_pos (by simpa using hch)]
      simp
    | succ j =>
      rw [if_neg (by rw [Nat.succ_mul]; omega)]
      have harith : (j + 1) * C + ch - C = j * C + ch := by
        rw [Nat.succ_mul]; omega
      rw [harith]
      exact ih (g ∘ Nat.succ) (fun i hi => hg (i + 1) (by omega)) j ch
        (by omega) hch bb hh ww

theorem cat1_range_head (g : Nat → Tensor4) (n : Nat) (hn : 0 < n) :
    (cat1 ((List.range n).map g)).b = (g 0).b ∧
    (cat1 ((List.range n).map g)).h = (g 0).h ∧
    (cat1 ((List.range n).map g)).w = (g 0).w ∧
    (cat1 ((List.range n).map g)).device = (g 0).device ∧
    (cat1 ((List.range n).map g)).dtype = (g 0).dtype := by
  cases n with
  | zero => omega
  | succ m =>
    rw [List.range_succ_eq_map, List.map_cons]
    exact ⟨rfl, rfl, rfl, rfl, rfl⟩

/-!  # Claim theorems -/

/-- C2: for a conditioning latent of shape (B0, C, H, W) and scale factor
`s`, the precomputed tensor is the raw latent scaled elementwise by `s`
with its B0 batch entries concatenated along the channel axis: it has
shape (1, C·B0, H, W), and entry (0, bi·C + ch, hh, ww) equals
`samples.val bi ch hh ww * s`.  (Shape (2,4,16,16) with s = 0.18215 hence
yields (1,8,16,16): see the witness.) -/
theorem c2_scale_law (samples : Tensor4) (s : ℚ) (hB : 0 < samples.b) :
    ((concatCondsOf samples s).b = 1 ∧
     (concatCondsOf samples s).c = samples.c * samples.b ∧
     (concatCondsOf samples s).h = samples.h ∧
     (concatCondsOf samples s).w = samples.w) ∧
    (∀ bi, bi < samples.b → ∀ ch, ch < samples.c → ∀ hh ww,
      (concatCondsOf samples s).val 0 (bi * samples.c + ch) hh ww
        = samples.val bi ch hh ww * s) := by
  have hhead := cat1_range_head (samples.mulScalar s).sliceB samples.b hB
  have hc := cat1_range_c samples.c samples.b (samples.mulScalar s).sliceB
    (fun i _ => rfl)
  have hval := cat1_range_val samples.c samples.b (samples.mulScalar s).sliceB
    (fun i _ => rfl)
  refine ⟨⟨hhead.1, ?_, hhead.2.1, hhead.2.2.1⟩, ?_⟩
  · rw [show (concatCondsOf samples s).c
      = (cat1 ((List.range samples.b).map (samples.mulScalar s).sliceB)).c from rfl,
      hc, Nat.mul_comm]
  · intro bi hbi ch hch hh ww
    exact hval bi ch hbi hch 0 hh ww

/-- C2 witness: shape (2,4,16,16) with s = 0.18215 yields shape
(1,8,16,16), and the entry at channel 5 = 1·4 + 1 is
`demoLatent.val 1 1 0 0 * 0.18215 = 5 * 0.18215`. -/
theorem c2_scale_law_witness :
    (concatCondsOf demoLatent (18215 / 100000)).b = 1 ∧
    (concatCondsOf demoLatent (18215 / 100000)).c = 8 ∧
    (concatCondsOf demoLatent (18215 / 100000)).h = 16 ∧
    (concatCondsOf demoLatent (18215 / 100000)).w = 16 ∧
    (concatCondsOf demoLatent (18215 / 100000)).val 0 (1 * 4 + 1) 0 0
      = 5 * (18215 / 100000) := by
  have h := c2_scale_law demoLatent (18215 / 100000) (by decide)
  refine ⟨h.1.1, by simpa using h.1.2.1, h.1.2.2.1, h.1.2.2.2, ?_⟩
  have := h.2 1 (by decide) 1 (by decide) 0 0
  simp only [show demoLatent.c = 4 from rfl] at this
  rw [this]
  norm_num [demoLatent]

/-- C3: at a forward call with live input batch `B` and a precomputed
conditioning tensor of batch 1, the tensor stored under `"c_concat"` is the
`injected_c_concat` tensor, its batch size is exactly `B`, and each of its
`B` batch slices equals the single precomputed slice. -/
theorem c3_broadcast_law (concat_conds : Tensor4) (params : UnetParams)
    (h1 : concat_conds.b = 1) :
    (apply_c_concat concat_conds params).c.get "c_concat"
      = some (injected_c_concat concat_conds params) ∧
    (injected_c_concat concat_conds params).b = params.input.b ∧
    (∀ i, i < params.input.b → ∀ ch hh ww,
      (injected_c_concat concat_conds params).val i ch hh ww
        = concat_conds.val 0 ch hh ww) := by
  refine ⟨by simp [apply_c_concat, CDict.set, CDict.get], ?_, ?_⟩
  · show (cat0 (List.replicate (params.input.b / concat_conds.b)
      (concat_conds.toDevice params.input.device))).b = params.input.b
    rw [cat0_replicate_b]
    simp [Tensor4.toDevice, h1]
  · intro i hi ch hh ww
    exact cat0_replicate_val (concat_conds.toDevice params.input.device)
      (by simp [Tensor4.toDevice, h1]) (params.input.b / concat_conds.b) i
      (by simp [h1]; omega) ch hh ww

/-- C3 witness: batch-1 conditioning and a batch-3 live input. -/
theorem c3_broadcast_law_witness :
    (injected_c_concat
      ⟨1, 8, 2, 2, fun _ _ _ _ => 7, 0, 0⟩
      ⟨⟨3, 4, 2, 2, fun _ _ _ _ => 0, 1, 1⟩,
        ⟨1, 1, 1, 1, fun _ _ _ _ => 0, 1, 1⟩, [], []⟩).b = 3 ∧
    (injected_c_concat
      ⟨1, 8, 2, 2, fun _ _ _ _ => 7, 0, 0⟩
      ⟨⟨3, 4, 2, 2, fun _ _ _ _ => 0, 1, 1⟩,
        ⟨1, 1, 1, 1, fun _ _ _ _ => 0, 1, 1⟩, [], []⟩).val 2 5 1 1 = 7 := by
  have h := c3_broadcast_law
    ⟨1, 8, 2, 2, fun _ _ _ _ => 7, 0, 0⟩
    ⟨⟨3, 4, 2, 2, fun _ _ _ _ => 0, 1, 1⟩,
      ⟨1, 1, 1, 1, fun _ _ _ _ => 0, 1, 1⟩, [], []⟩ rfl
  exact ⟨h.2.1, h.2.2 2 (by decide) 5 1 1⟩

/-- C10: the precomputed conditioning tensor has batch dimension exactly 1
(whenever the raw latent is non-empty, which `torch.cat` requires), so at
every forward call the floor division `B // 1` equals `B` exactly and the
injected tensor's batch size is exactly the live batch size `B`. -/
theorem c10_batch_one_invariant (samples : Tensor4) (s : ℚ)
    (hB : 0 < samples.b) :
    (concatCondsOf samples s).b = 1 ∧
    (∀ params : UnetParams,
      params.input.b / (concatCondsOf samples s).b = params.input.b) ∧
    (∀ params : UnetParams,
      (injected_c_concat (concatCondsOf samples s) params).b
        = params.input.b) := by
  have hb1 : (concatCondsOf samples s).b = 1 :=
    (cat1_range_head (samples.mulScalar s).sliceB samples.b hB).1
  refine ⟨hb1, fun params => by rw [hb1, Nat.div_one], fun params => ?_⟩
  show (cat0 (List.replicate (params.input.b / (concatCondsOf samples s).b)
    ((concatCondsOf samples s).toDevice params.input.device))).b = params.input.b
  rw [cat0_replicate_b]
  simp [Tensor4.toDevice, hb1]

/-- C10 witness: the (2,4,16,16) demo latent and a batch-5 live input. -/
theorem c10_batch_one_invariant_witness :
    (concatCondsOf demoLatent (18215 / 100000)).b = 1 ∧
    (injected_c_concat (concatCondsOf demoLatent (18215 / 100000))
      ⟨⟨5, 4, 2, 2, fun _ _ _ _ => 0, 1, 1⟩,
        ⟨1, 1, 1, 1, fun _ _ _ _ => 0, 1, 1⟩, [], []⟩).b = 5 := by
  have h := c10_batch_one_invariant demoLatent (18215 / 100000) (by decide)
  exact ⟨h.1, h.2.2 _⟩

/-- C6 counterexample: the injected tensor keeps the precomputed tensor's
dtype; it is not converted to the live input's dtype.  With a precomputed
tensor of dtype tag 0 and a live input of dtype tag 1, the tensor stored
under `"c_concat"` has dtype 0 ≠ 1. -/
theorem c6_dtype_counterexample :
    (apply_c_concat ⟨1, 8, 2, 2, fun _ _ _ _ => 0, 0, 0⟩
      ⟨⟨2, 4, 2, 2, fun _ _ _ _ => 0, 1, 1⟩,
        ⟨1, 1, 1, 1, fun _ _ _ _ => 0, 1, 1⟩, [], []⟩).c.get "c_concat"
      = some (injected_c_concat ⟨1, 8, 2, 2, fun _ _ _ _ => 0, 0, 0⟩
        ⟨⟨2, 4, 2, 2, fun _ _ _ _ => 0, 1, 1⟩,
          ⟨1, 1, 1, 1, fun _ _ _ _ => 0, 1, 1⟩, [], []⟩) ∧
    (injected_c_concat ⟨1, 8, 2, 2, fun _ _ _ _ => 0, 0, 0⟩
      ⟨⟨2, 4, 2, 2, fun _ _ _ _ => 0, 1, 1⟩,
        ⟨1, 1, 1, 1, fun _ _ _ _ => 0, 1, 1⟩, [], []⟩).dtype ≠
    (⟨2, 4, 2, 2, fun _ _ _ _ => 0, 1, 1⟩ : Tensor4).dtype := by
  exact ⟨by simp [apply_c_concat, CDict.set, CDict.get], by decide⟩

/-- C6 (amended): the tensor injected under `"c_concat"` has device equal
to the live input tensor's device, converted at call time; its dtype is
that of the precomputed conditioning tensor (the scaled raw latent), not
necessarily the live input's dtype. -/
theorem c6_device_at_call_time (concat_conds : Tensor4) (params : UnetParams)
    (h1 : concat_conds.b = 1) (hB : 0 < params.input.b) :
    (apply_c_concat concat_conds params).c.get "c_concat"
      = some (injected_c_concat concat_conds params) ∧
    (injected_c_concat concat_conds params).device = params.input.device ∧
    (injected_c_concat concat_conds params).dtype = concat_conds.dtype := by
  have hk : 0 < params.input.b / concat_conds.b := by
    rw [h1, Nat.div_one]; exact hB
  have hh := cat0_replicate_head (concat_conds.toDevice params.input.device)
    (params.input.b / concat_conds.b) hk
  exact ⟨by simp [apply_c_concat, CDict.set, CDict.get],
    hh.2.2.2.1, hh.2.2.2.2⟩

/-- C6 witness: batch-1 conditioning on device 0, live input on device 1. -/
theorem c6_device_at_call_time_witness :
    (injected_c_concat ⟨1, 8, 2, 2, fun _ _ _ _ => 0, 0, 0⟩
      ⟨⟨2, 4, 2, 2, fun _ _ _ _ => 0, 1, 1⟩,
        ⟨1, 1, 1, 1, fun _ _ _ _ => 0, 1, 1⟩, [], []⟩).device = 1 := by
  have h := c6_device_at_call_time ⟨1, 8, 2, 2, fun _ _ _ _ => 0, 0, 0⟩
    ⟨⟨2, 4, 2, 2, fun _ _ _ _ => 0, 1, 1⟩,
      ⟨1, 1, 1, 1, fun _ _ _ _ => 0, 1, 1⟩, [], []⟩ rfl (by decide)
  exact h.2.1

/-- C9: `apply_mask` returns `image * alpha + 0.5 * (1 - alpha)` with the
mask's channel dimension broadcast; for alpha ≡ 1 it returns the image's
values unchanged, and for alpha ≡ 0 every entry is `0.5`; the output shape
equals the image's shape. -/
theorem c9_apply_mask_grey (image : TImg) (alpha : MaskArg) :
    ((apply_mask image alpha).b = image.b ∧
      (apply_mask image alpha).h = image.h ∧
      (apply_mask image alpha).w = image.w ∧
      (apply_mask image alpha).c = image.c) ∧
    (∀ bb hh ww cc,
      (apply_mask image alpha).val bb hh ww cc =
        image.val bb hh ww cc * alpha.at bb hh ww
          + (1 / 2) * (1 - alpha.at bb hh ww)) ∧
    ((∀ bb hh ww, alpha.at bb hh ww = 1) →
      ∀ bb hh ww cc,
        (apply_mask image alpha).val bb hh ww cc = image.val bb hh ww cc) ∧
    ((∀ bb hh ww, alpha.at bb hh ww = 0) →
      ∀ bb hh ww cc, (apply_mask image alpha).val bb hh ww cc = 1 / 2) := by
  refine ⟨⟨rfl, rfl, rfl, rfl⟩, ?_, ?_, ?_⟩
  · intro bb hh ww cc
    cases alpha <;> simp [apply_mask, MaskArg.at, Tensor3.unsqueezeLast] <;> ring
  · intro h1 bb hh ww cc
    have ha := h1 bb hh ww
    cases alpha <;> simp [MaskArg.at] at ha <;>
      simp [apply_mask, Tensor3.unsqueezeLast, ha]
  · intro h0 bb hh ww cc
    have ha := h0 bb hh ww
    cases alpha <;> simp [MaskArg.at] at ha <;>
      simp [apply_mask, Tensor3.unsqueezeLast, ha]

/-- C9 witness: a concrete 1×1×1×3 image with an all-ones 3-D mask
satisfies the hypotheses of the alpha ≡ 1 clause. -/
theorem c9_apply_mask_grey_witness :
    (apply_mask ⟨1, 1, 1, 3, fun _ _ _ cc => (cc : ℚ)⟩
        (.m3 ⟨1, 1, 1, fun _ _ _ => 1⟩)).val 0 0 0 2 = 2 := by
  have h := c9_apply_mask_grey ⟨1, 1, 1, 3, fun _ _ _ cc => (cc : ℚ)⟩
      (.m3 ⟨1, 1, 1, fun _ _ _ => 1⟩)
  have := h.2.2.1 (fun _ _ _ => rfl) 0 0 0 2
  simpa using this

/-!  # Wrapper-chain semantics -/

/-- Running an accumulated chain: stage entries are logged most recently
installed first, the endpoint invokes the unet apply callable once, and
the params reaching it carry every stage's pre-processing. -/
theorem chainOf_run {α : Type} (stages : List Stage) (ua : UApply α)
    (params : UnetParams) :
    chainOf stages ua params
      = ((stages.reverse.map fun s => Ev.stage s.id)
          ++ (unet_dummy_apply ua (preAll stages params)).1,
         (unet_dummy_apply ua (preAll stages params)).2) := by
  induction stages using List.reverseRecOn generalizing params with
  | nil => rfl
  | append_singleton l a ih =>
    have hfold : (chainOf (l ++ [a]) : WrapperFn α) = installStage a (chainOf l) := by
      simp [chainOf, List.foldl_append]
    rw [hfold]
    show (Ev.stage a.id :: (chainOf l ua (a.pre params)).1,
      (chainOf l ua (a.pre params)).2) = _
    rw [ih (a.pre params)]
    simp [preAll, List.foldr_append]

/-- C1: installing the conditioning-injection stage via `ICLight.apply` on
any previously accumulated wrapper chain yields a composed wrapper whose
run logs the new stage's entry first, then the earlier stages in reverse
installation order, and invokes the native forward exactly once, at the
innermost layer, on the fully pre-processed params (with `apply_c_concat`
applied first); and the default endpoint (`unet_dummy_apply`, used when no
wrapper was previously installed) invokes the native forward with the
call's input and timestep tensors and the conditioning mapping. -/
theorem c1_wrapper_composition {α : Type} (concat_conds : Tensor4) (sid : Nat)
    (prior : List Stage) (nf : Tensor4 → Tensor4 → CDict → α)
    (params : UnetParams) :
    (wrapper_func concat_conds sid (chainOf prior) (nativeInstr nf) params
      = (Ev.stage sid ::
          ((prior.reverse.map fun s => Ev.stage s.id) ++ [Ev.native]),
         nf (preAll prior (apply_c_concat concat_conds params)).input
            (preAll prior (apply_c_concat concat_conds params)).timestep
            (preAll prior (apply_c_concat concat_conds params)).c)) ∧
    (wrapper_func concat_conds sid (chainOf prior) (nativeInstr nf)
        params).1.count Ev.native = 1 ∧
    (∀ (ua : UApply α) (q : UnetParams),
      unet_dummy_apply ua q = ua q.input q.timestep q.c) := by
  have h1 : wrapper_func concat_conds sid (chainOf prior) (nativeInstr nf) params
      = (Ev.stage sid ::
          ((prior.reverse.map fun s => Ev.stage s.id) ++ [Ev.native]),
         nf (preAll prior (apply_c_concat concat_conds params)).input
            (preAll prior (apply_c_concat concat_conds params)).timestep
            (preAll prior (apply_c_concat concat_conds params)).c) := by
    show (Ev.stage sid ::
        (chainOf prior (nativeInstr nf) (apply_c_concat concat_conds params)).1,
      (chainOf prior (nativeInstr nf) (apply_c_concat concat_conds params)).2) = _
    rw [chainOf_run prior (nativeInstr nf) (apply_c_concat concat_conds params)]
    rfl
  refine ⟨h1, ?_, fun ua q => rfl⟩
  rw [h1]
  have hzero : ∀ l : List Stage,
      (l.map fun s => Ev.stage s.id).count Ev.native = 0 := by
    intro l
    rw [List.count_eq_zero]
    intro hmem
    obtain ⟨s, _, habs⟩ := List.mem_map.mp hmem
    exact Ev.noConfusion habs
  simp [List.count_cons, List.count_append, hzero]

/-!  # Patch-set claims -/

/-- Prefixing with the diffusion sub-network namespace is injective. -/
theorem diffusionNamespaceInj : Function.Injective
    (fun k : String => "diffusion_model." ++ k) := by
  intro a b hab
  have hd := congrArg String.data hab
  rw [String.data_append, String.data_append] at hd
  exact String.ext (List.append_cancel_left hd)

/-- C4: the patch set registered by `ICLight.apply` has exactly one patch
per auxiliary parameter (same length, keys distinct whenever the auxiliary
state-dict keys are), each keyed by the parameter name prefixed with
`"diffusion_model."` and carrying the parameter's value moved to the unet
dtype and device; every patch has kind `"diff"`, and `pad_weight` is true
exactly for `input_blocks.0.0.weight`. -/
theorem c4_patch_set (dtype device : Nat) (sd : List (String × WTensor))
    (hnd : (sd.map Prod.fst).Nodup) :
    (buildPatches dtype device sd).length = sd.length ∧
    ((buildPatches dtype device sd).map Prod.fst).Nodup ∧
    (∀ kv ∈ sd,
      ("diffusion_model." ++ kv.1,
        ({ kind := "diff", value := kv.2.to dtype device,
           pad_weight := kv.1 == "input_blocks.0.0.weight" } : PatchEntry))
        ∈ buildPatches dtype device sd) ∧
    (∀ p ∈ buildPatches dtype device sd,
      p.2.kind = "diff" ∧
      (p.2.pad_weight = true ↔
        p.1 = "diffusion_model.input_blocks.0.0.weight")) := by
  refine ⟨List.length_map _ _, ?_, ?_, ?_⟩
  · have hkeys : (buildPatches dtype device sd).map Prod.fst
        = (sd.map Prod.fst).map (fun k => "diffusion_model." ++ k) := by
      simp only [buildPatches, List.map_map]
      rfl
    rw [hkeys]
    exact hnd.map diffusionNamespaceInj
  · intro kv hkv
    exact List.mem_map_of_mem _ hkv
  · intro p hp
    obtain ⟨kv, _, hpe⟩ := List.mem_map.mp hp
    subst hpe
    refine ⟨rfl, ?_⟩
    rw [show ("diffusion_model.input_blocks.0.0.weight" : String)
      = "diffusion_model." ++ "input_blocks.0.0.weight" from rfl]
    constructor
    · intro hb
      have : kv.1 = "input_blocks.0.0.weight" := by
        simpa using hb
      rw [this]
    · intro he
      have : kv.1 = "input_blocks.0.0.weight" := diffusionNamespaceInj he
      simp [this]

/-- C4 witness: a two-parameter auxiliary state dict containing the first
convolution's weight. -/
theorem c4_patch_set_witness :
    (buildPatches 2 3 [("input_blocks.0.0.weight", ⟨0, 0, 0⟩),
      ("output_blocks.1.1.weight", ⟨1, 0, 0⟩)]).length = 2 ∧
    ("diffusion_model." ++ "input_blocks.0.0.weight",
      ({ kind := "diff", value := WTensor.to ⟨0, 0, 0⟩ 2 3,
         pad_weight := ("input_blocks.0.0.weight" : String)
           == "input_blocks.0.0.weight" } : PatchEntry))
      ∈ buildPatches 2 3 [("input_blocks.0.0.weight", ⟨0, 0, 0⟩),
          ("output_blocks.1.1.weight", ⟨1, 0, 0⟩)] := by
  have h := c4_patch_set 2 3 [("input_blocks.0.0.weight", ⟨0, 0, 0⟩),
    ("output_blocks.1.1.weight", ⟨1, 0, 0⟩)] (by decide)
  exact ⟨h.1, h.2.2.1 ("input_blocks.0.0.weight", ⟨0, 0, 0⟩) (by simp)⟩

/-!  # Heap lemmas and `ICLight.apply` orchestration claims -/

theorem lookupState_mem {l : List (Nat × ModelState)} {i : Nat}
    {s : ModelState} (h : lookupState l i = some s) : (i, s) ∈ l := by
  induction l with
  | nil => simp [lookupState] at h
  | cons a rest ih =>
    obtain ⟨j, st⟩ := a
    by_cases hj : j = i
    · subst hj
      simp [lookupState] at h
      subst h
      exact List.mem_cons_self _ _
    · simp [lookupState, hj] at h
      exact List.mem_cons_of_mem _ (ih h)

theorem lookupState_map_set (l : List (Nat × ModelState)) (i j : Nat)
    (s : ModelState) (hne : j ≠ i) :
    lookupState (l.map fun p => if p.1 = i then (i, s) else p) j
      = lookupState l j := by
  induction l with
  | nil => rfl
  | cons a rest ih =>
    obtain ⟨k, st⟩ := a
    by_cases hk : k = i
    · subst hk
      simp only [List.map_cons, if_pos rfl]
      show (if k = j then some s else _) = (if k = j then some st else _)
      rw [if_neg (fun hkj => hne hkj.symm), if_neg (fun hkj => hne hkj.symm)]
      exact ih
    · simp only [List.map_cons, if_neg hk]
      show (if k = j then some st else _) = (if k = j then some st else _)
      by_cases hkj : k = j
      · rw [if_pos hkj, if_pos hkj]
      · rw [if_neg hkj, if_neg hkj]
        exact ih

theorem lookupState_map_set_self (l : List (Nat × ModelState)) (i : Nat)
    (s st0 : ModelState) (h : lookupState l i = some st0) :
    lookupState (l.map fun p => if p.1 = i then (i, s) else p) i = some s := by
  induction l with
  | nil => simp [lookupState] at h
  | cons a rest ih =>
    obtain ⟨k, st⟩ := a
    by_cases hk : k = i
    · subst hk
      simp only [List.map_cons, if_pos rfl]
      show (if k = k then some s else _) = some s
      rw [if_pos rfl]
    · simp only [List.map_cons, if_neg hk]
      show (if k = i then some st else _) = some s
      rw [if_neg hk]
      simp [lookupState, hk] at h
      exact ih h

/-- C5: calling `ICLight.apply` with a conditioning input that lacks the
`"samples"` field raises the missing-field error and performs no side
effect at all: the heap (hence both input model handles) is returned
unchanged, before any cloning or patch computation. -/
theorem c5_missing_field (w : World) (modelId icId : Nat) (c_concat : CDict)
    (dtype device sid : Nat) (h : CDict.get c_concat "samples" = none) :
    ICLight_apply w modelId icId c_concat dtype device sid
      = (w, .error .missingField) := by
  simp [ICLight_apply, h]

/-- C5 witness: an empty conditioning dict on a two-handle world. -/
theorem c5_missing_field_witness :
    ICLight_apply ⟨2, [(0, ⟨0, 1, [], [], none⟩), (1, ⟨1, 1, [], [], none⟩)]⟩
      0 1 [] 0 0 5
      = (⟨2, [(0, ⟨0, 1, [], [], none⟩), (1, ⟨1, 1, [], [], none⟩)]⟩,
         .error .missingField) :=
  c5_missing_field _ 0 1 [] 0 0 5 rfl

/-- C7: on success, `ICLight.apply` returns a freshly allocated clone
handle, distinct from both inputs; the original base model's state —
weights reference, patch overlay and forward-wrapper slot — is unchanged,
the auxiliary model's state is unchanged, and the clone carries exactly
the original overlay extended with the new wrapper stage and the
registered patch batch. -/
theorem c7_original_untouched (w : World) (modelId icId : Nat)
    (c_concat : CDict) (dtype device sid : Nat) (mSt icSt : ModelState)
    (v : Tensor4)
    (hWF : ∀ p ∈ w.heap, p.1 < w.nextId)
    (hm : w.get modelId = some mSt)
    (hic : w.get icId = some icSt)
    (hs : CDict.get c_concat "samples" = some v) :
    (ICLight_apply w modelId icId c_concat dtype device sid).2
      = .ok w.nextId ∧
    w.nextId ≠ modelId ∧ w.nextId ≠ icId ∧
    (ICLight_apply w modelId icId c_concat dtype device sid).1.get modelId
      = some mSt ∧
    (ICLight_apply w modelId icId c_concat dtype device sid).1.get icId
      = some icSt ∧
    (ICLight_apply w modelId icId c_concat dtype device sid).1.get w.nextId
      = some { mSt with
          wrapper := some (mSt.wrapper.getD [] ++ [sid]),
          patches := mSt.patches
            ++ buildPatches dtype device icSt.diffusionSD } := by
  have hlt_m : modelId < w.nextId := hWF _ (lookupState_mem hm)
  have hlt_ic : icId < w.nextId := hWF _ (lookupState_mem hic)
  have hne_m : w.nextId ≠ modelId := by omega
  have hne_ic : w.nextId ≠ icId := by omega
  have hclone : w.clone modelId
      = (⟨w.nextId + 1, (w.nextId, mSt) :: w.heap⟩, w.nextId) := by
    simp [World.clone, hm]
  have happly : ICLight_apply w modelId icId c_concat dtype device sid
      = (addPatchesOp
          (setUnetFunctionWrapper ⟨w.nextId + 1, (w.nextId, mSt) :: w.heap⟩
            w.nextId sid)
          w.nextId (buildPatches dtype device icSt.diffusionSD),
         .ok w.nextId) := by
    simp [ICLight_apply, hs, hm, hic, hclone]
  have hw2 : setUnetFunctionWrapper ⟨w.nextId + 1, (w.nextId, mSt) :: w.heap⟩
      w.nextId sid
      = World.set ⟨w.nextId + 1, (w.nextId, mSt) :: w.heap⟩ w.nextId
          { mSt with wrapper := some (mSt.wrapper.getD [] ++ [sid]) } := by
    simp [setUnetFunctionWrapper, World.get, lookupState]
  have hget2 : (World.set ⟨w.nextId + 1, (w.nextId, mSt) :: w.heap⟩ w.nextId
      { mSt with wrapper := some (mSt.wrapper.getD [] ++ [sid]) }).get w.nextId
      = some { mSt with wrapper := some (mSt.wrapper.getD [] ++ [sid]) } := by
    apply lookupState_map_set_self _ _ _ mSt
    simp [lookupState]
  have hw3 : addPatchesOp
      (World.set ⟨w.nextId + 1, (w.nextId, mSt) :: w.heap⟩ w.nextId
        { mSt with wrapper := some (mSt.wrapper.getD [] ++ [sid]) })
      w.nextId (buildPatches dtype device icSt.diffusionSD)
      = World.set
          (World.set ⟨w.nextId + 1, (w.nextId, mSt) :: w.heap⟩ w.nextId
            { mSt with wrapper := some (mSt.wrapper.getD [] ++ [sid]) })
          w.nextId
          { mSt with
            wrapper := some (mSt.wrapper.getD [] ++ [sid]),
            patches := mSt.patches
              ++ buildPatches dtype device icSt.diffusionSD } := by
    rw [addPatchesOp, hget2]
  rw [happly, hw2, hw3]
  refine ⟨rfl, hne_m, hne_ic, ?_, ?_, ?_⟩
  · show lookupState _ modelId = some mSt
    rw [World.set, World.set]
    show lookupState (List.map _ (List.map _ _)) modelId = some mSt
    rw [lookupState_map_set _ _ _ _ (by omega),
      lookupState_map_set _ _ _ _ (by omega)]
    show (if w.nextId = modelId then some mSt else lookupState w.heap modelId)
      = some mSt
    rw [if_neg hne_m]
    exact hm
  · show lookupState _ icId = some icSt
    rw [World.set, World.set]
    show lookupState (List.map _ (List.map _ _)) icId = some icSt
    rw [lookupState_map_set _ _ _ _ (by omega),
      lookupState_map_set _ _ _ _ (by omega)]
    show (if w.nextId = icId then some mSt else lookupState w.heap icId)
      = some icSt
    rw [if_neg hne_ic]
    exact hic
  · apply lookupState_map_set_self _ _ _
      { mSt with wrapper := some (mSt.wrapper.getD [] ++ [sid]) }
    exact hget2

/-- C7 witness: a two-handle world (base handle 0, auxiliary handle 1)
and a conditioning dict holding a `"samples"` latent. -/
theorem c7_original_untouched_witness :
    (ICLight_apply ⟨2, [(0, ⟨0, 1, [], [], none⟩), (1, ⟨1, 1, [], [], none⟩)]⟩
      0 1 [("samples", ⟨1, 4, 2, 2, fun _ _ _ _ => 0, 0, 0⟩)] 0 0 9).2
      = .ok 2 ∧
    (ICLight_apply ⟨2, [(0, ⟨0, 1, [], [], none⟩), (1, ⟨1, 1, [], [], none⟩)]⟩
      0 1 [("samples", ⟨1, 4, 2, 2, fun _ _ _ _ => 0, 0, 0⟩)] 0 0 9).1.get 0
      = some ⟨0, 1, [], [], none⟩ := by
  have h := c7_original_untouched
    ⟨2, [(0, ⟨0, 1, [], [], none⟩), (1, ⟨1, 1, [], [], none⟩)]⟩
    0 1 [("samples", ⟨1, 4, 2, 2, fun _ _ _ _ => 0, 0, 0⟩)] 0 0 9
    ⟨0, 1, [], [], none⟩ ⟨1, 1, [], [], none⟩
    ⟨1, 4, 2, 2, fun _ _ _ _ => 0, 0, 0⟩
    (by
      intro p hp
      simp only [List.mem_cons, List.not_mem_nil, or_false] at hp
      rcases hp with rfl | rfl <;> decide)
    rfl rfl rfl
  exact ⟨h.1, h.2.2.2.1⟩

/-!  # `VAEEncodeArgMax` scoped override -/

/-- C8: for a VAE whose encoder is an `AutoencoderKL`, `encode` delegates
to the standard encode with the sampling flag forced to `false`, passes
its result (or exception) through, and restores the flag to its original
value on every exit path — the final state is the delegate's state with
the sampling flag restored, whether the delegate succeeded or raised. -/
theorem c8_scoped_override
    (inner : VAEState → Nat → VAEState × Except String Nat)
    (vae : VAEState) (pixels : Nat) (hKL : vae.isAutoencoderKL = true) :
    VAEEncodeArgMax_encode inner vae pixels
      = ({ (inner { vae with sample := false } pixels).1
            with sample := vae.sample },
         (inner { vae with sample := false } pixels).2) ∧
    (VAEEncodeArgMax_encode inner vae pixels).1.sample = vae.sample ∧
    (∀ e, (inner { vae with sample := false } pixels).2 = Except.error e →
      (VAEEncodeArgMax_encode inner vae pixels).1.sample = vae.sample) := by
  have h1 : VAEEncodeArgMax_encode inner vae pixels
      = ({ (inner { vae with sample := false } pixels).1
            with sample := vae.sample },
         (inner { vae with sample := false } pixels).2) := by
    simp [VAEEncodeArgMax_encode, hKL]
  exact ⟨h1, by rw [h1], fun e _ => by rw [h1]⟩

/-- C8 witness: a supported VAE with the flag originally `true` and a
delegate that raises; the flag is restored on the failure path. -/
theorem c8_scoped_override_witness :
    (VAEEncodeArgMax_encode (fun v _ => (v, Except.error "boom"))
      ⟨true, true, 0⟩ 0).1.sample = true := by
  have h := c8_scoped_override (fun v _ => (v, Except.error "boom"))
    ⟨true, true, 0⟩ 0 rfl
  exact h.2.1
